import Mathlib

set_option maxRecDepth 40000

/-
  Verification of the delayed-message echo service (Redis-backed, Node.js).

  The definitions below are a shallow embedding of the source files:
    - queue module (setUp / enqueue / inspectQueue / tryDequeuing / getMessageId),
    - Timer (reprogrammable timer immune to the platform maximum delay),
    - toolbox (numberToBuffer / bufferToNumber),
    - index.js HTTP handler (timestamp rounding).

  JavaScript numbers are IEEE-754 binary64 values; machine words in SHA-1 are
  modelled as Nat with explicit reduction modulo 2^32.  Buffers are lists of
  byte values (Nat < 256).  Strings hashed by the code are modelled by their
  raw byte lists.
-/

namespace Echoing

/-! ### Machine-word and byte-string helpers -/

/-- Reduction of a natural number to a 32-bit word. -/
def w32 (x : ℕ) : ℕ := x % 4294967296

/-- Left rotation of a 32-bit word by n bits (for x < 2^32). -/
def rotl (n x : ℕ) : ℕ := w32 (x * 2 ^ n) ||| (x / 2 ^ (32 - n))

/-- Big-endian byte serialization of a value into n bytes. -/
def beBytes (n v : ℕ) : List ℕ :=
  (List.range n).map fun i => v / 2 ^ (8 * (n - 1 - i)) % 256

/-- Little-endian byte serialization of a value into n bytes. -/
def leBytes : ℕ → ℕ → List ℕ
  | 0, _ => []
  | n + 1, v => v % 256 :: leBytes n (v / 256)

/-- Value of a little-endian byte list. -/
def leNat : List ℕ → ℕ
  | [] => 0
  | b :: rest => b + 256 * leNat rest

/-! ### SHA-1 (as used by crypto.createHash in getMessageId) -/

/-- SHA-1 padding: append 0x80, zero bytes up to 56 mod 64, then the bit
length on 8 big-endian bytes. -/
def sha1pad (msg : List ℕ) : List ℕ :=
  msg ++ [128] ++ List.replicate ((119 - msg.length % 64) % 64) 0 ++ beBytes 8 (8 * msg.length)

/-- Group big-endian bytes into 32-bit words, four bytes per word. -/
def bytesToWords : List ℕ → List ℕ
  | b0 :: b1 :: b2 :: b3 :: rest =>
      (b0 * 16777216 + b1 * 65536 + b2 * 256 + b3) :: bytesToWords rest
  | _ => []

/-- Message-schedule extension; the accumulator holds the words produced so
far in reverse order (head = most recent). -/
def extendLoop : ℕ → List ℕ → List ℕ
  | 0,
    rws => rws
  | n + 1,
    rws =>
      extendLoop n
        (rotl 1 (rws.getD 2 0 ^^^ rws.getD 7 0 ^^^ rws.getD 13 0 ^^^ rws.getD 15 0) :: rws)

/-- The SHA-1 round function, by round index. -/
def sha1f (i b c d : ℕ) : ℕ :=
  if i < 20 then (b &&& c) ||| ((b ^^^ 4294967295) &&& d)
  else if i < 40 then b ^^^ c ^^^ d
  else if i < 60 then (b &&& c) ||| (b &&& d) ||| (c &&& d)
  else b ^^^ c ^^^ d

/-- The SHA-1 round constants, by round index. -/
def sha1k (i : ℕ) : ℕ :=
  if i < 20 then 1518500249
  else if i < 40 then 1859775393
  else if i < 60 then 2400959708
  else 3395469782

/-- One compression: consume the 80 scheduled words starting at round i. -/
def sha1rounds : List ℕ → ℕ → ℕ × ℕ × ℕ × ℕ × ℕ → ℕ × ℕ × ℕ × ℕ × ℕ
  | [], _, st => st
  | wi :: ws, i, (a, b, c, d, e) =>
      sha1rounds ws (i + 1)
        (w32 (rotl 5 a + sha1f i b c d + e + sha1k i + wi), a, rotl 30 b, c, d)

/-- Process the padded message 16 words (one 512-bit block) at a time. -/
def sha1blocks : List ℕ → ℕ × ℕ × ℕ × ℕ × ℕ → ℕ × ℕ × ℕ × ℕ × ℕ
  | w0 :: w1 :: w2 :: w3 :: w4 :: w5 :: w6 :: w7 ::
    w8 :: w9 :: w10 :: w11 :: w12 :: w13 :: w14 :: w15 :: rest, h =>
      let w := (extendLoop 64
        [w15, w14, w13, w12, w11, w10, w9, w8, w7, w6, w5, w4, w3, w2, w1, w0]).reverse
      let st := sha1rounds w 0 h
      sha1blocks rest
        (w32 (h.1 + st.1), w32 (h.2.1 + st.2.1), w32 (h.2.2.1 + st.2.2.1),
         w32 (h.2.2.2.1 + st.2.2.2.1), w32 (h.2.2.2.2 + st.2.2.2.2))
  | _, h => h

/-- SHA-1 digest of a byte string: 20 bytes. -/
def sha1 (msg : List ℕ) : List ℕ :=
  let st := sha1blocks (bytesToWords (sha1pad msg))
    (1732584193, 4023233417, 2562383102, 271733878, 3285377520)
  beBytes 4 st.1 ++ beBytes 4 st.2.1 ++ beBytes 4 st.2.2.1 ++
    beBytes 4 st.2.2.2.1 ++ beBytes 4 st.2.2.2.2

/-- Sanity check against the published test vector SHA1("abc"). -/
theorem sha1_test_vector :
    sha1 [97, 98, 99] =
      [169, 153, 62, 54, 71, 6, 129, 106, 186, 62, 37, 113, 120, 80, 194, 108,
       156, 208, 216, 157] := by decide

/-! ### IEEE-754 binary64 (JavaScript numbers) and the toolbox conversions -/

/-- A JavaScript number, i.e. an IEEE-754 binary64 datum.  A NaN carries its
full 64-bit pattern: V8 (the engine under Node) moves the raw bits of a
double verbatim through the Float64Array loads and stores that back
readDoubleLE and writeDoubleLE, preserving NaN payloads. -/
inductive JSNumber where
  | finite (sign : Bool) (exp : ℕ) (frac : ℕ)
  | inf (sign : Bool)
  | nan (bits : ℕ)
deriving DecidableEq

/-- The 64-bit patterns that denote a NaN. -/
def isNaNPattern (v : ℕ) : Prop :=
  v / 2 ^ 52 % 2 ^ 11 = 2047 ∧ v % 2 ^ 52 ≠ 0

/-- Well-formedness of a binary64 datum: field bounds, and a NaN holds an
actual NaN pattern. -/
def validJSNumber : JSNumber → Prop
  | .finite _ e f => e < 2047 ∧ f < 2 ^ 52
  | .inf _ => True
  | .nan b => b < 2 ^ 64 ∧ isNaNPattern b

/-- The 64-bit pattern of a binary64 datum (a NaN writes its own pattern
back verbatim). -/
def f64bits : JSNumber → ℕ
  | .finite s e f => (if s then 2 ^ 63 else 0) + e * 2 ^ 52 + f
  | .inf s => (if s then 2 ^ 63 else 0) + 2047 * 2 ^ 52
  | .nan b => b

/-- The binary64 datum read from a 64-bit pattern (a NaN pattern reads as a
NaN carrying that very pattern). -/
def f64ofBits (b : ℕ) : JSNumber :=
  let s : Bool := decide (b / 2 ^ 63 % 2 = 1)
  let e := b / 2 ^ 52 % 2 ^ 11
  let f := b % 2 ^ 52
  if e = 2047 then (if f = 0 then .inf s else .nan b) else .finite s e f

/-- The toolbox EMPTY_BUFFER. -/
def EMPTY_BUFFER : List ℕ := []

/-- toolbox.numberToBuffer: null maps to the empty buffer, a number to the 8
little-endian bytes written by writeDoubleLE (host endianness, assumed
little). -/
def numberToBuffer : Option JSNumber → List ℕ
  | none => EMPTY_BUFFER
  | some x => leBytes 8 (f64bits x)

/-- toolbox.bufferToNumber: the empty buffer maps to null, an 8-byte buffer
to the number read by readDoubleLE. -/
def bufferToNumber (b : List ℕ) : Option JSNumber :=
  if b = [] then none else some (f64ofBits (leNat b))

/-- Fuel-driven floor of the base-2 logarithm (0 on 0 and 1). -/
def log2floorAux : ℕ → ℕ → ℕ
  | 0, _ => 0
  | fuel + 1, n => if n ≤ 1 then 0 else log2floorAux fuel (n / 2) + 1

/-- Floor of the base-2 logarithm, exact for every value below 2^1100. -/
def log2floor (n : ℕ) : ℕ := log2floorAux 1100 n

/-- The binary64 datum produced by Float64Array.of on an integer: exact for
every integer of magnitude below 2^53 (the only ones the service handles);
larger non-representable integers are truncated toward zero, a modelling
convention never exercised by the theorems below. -/
def f64OfInt (t : ℤ) : JSNumber :=
  let a := t.natAbs
  let L := log2floor a
  if a = 0 then .finite false 0 0
  else if L ≤ 52 then .finite (decide (t < 0)) (L + 1023) (a * 2 ^ (52 - L) - 2 ^ 52)
  else if L ≤ 1023 then .finite (decide (t < 0)) (L + 1023) (a / 2 ^ (L - 52) - 2 ^ 52)
  else .inf (decide (t < 0))

/-- The exact rational value of a binary64 datum (none for infinities and
NaN); used only in statements, never in computations. -/
def JSNumber.toRat : JSNumber → Option ℚ
  | .finite s e f =>
      let mag : ℚ :=
        if e = 0 then (f : ℚ) / 2 ^ 1074
        else ((2 ^ 52 + f : ℕ) : ℚ) * 2 ^ (e : ℤ) / 2 ^ 1075
      some (if s then -mag else mag)
  | _ => none

/-- Math.round of a binary64 value: the greatest integer not above x + 1/2,
computed on the exact dyadic value (ECMAScript defines Math.round exactly).
Infinities and NaN are mapped to 0; the HTTP handler rejects them before
rounding. -/
def jsRound (x : JSNumber) : ℤ :=
  match x with
  | .finite s e f =>
      if e = 0 then 0
      else
        let m : ℤ := (if s then -1 else 1) * (2 ^ 52 + f : ℕ)
        if 1075 ≤ e then m * 2 ^ (e - 1075)
        else Int.fdiv (m * 2 + 2 ^ (1075 - e)) (2 ^ (1076 - e))
  | _ => 0

/-! ### Base-64 (as produced by hash.digest) -/

/-- The standard base-64 alphabet. -/
def base64Alphabet : List Char :=
  "ABCDEFGHIJKLMNOPQRSTUVWXYZabcdefghijklmnopqrstuvwxyz0123456789+/".toList

/-- One alphabet character, by 6-bit value. -/
def b64char (n : ℕ) : Char := base64Alphabet.getD n 'A'

/-- Standard base-64 encoding with trailing padding. -/
def base64encode : List ℕ → List Char
  | [] => []
  | [b0] => [b64char (b0 / 4), b64char (b0 % 4 * 16), '=', '=']
  | [b0, b1] => [b64char (b0 / 4), b64char (b0 % 4 * 16 + b1 / 16), b64char (b1 % 16 * 4), '=']
  | b0 :: b1 :: b2 :: rest =>
      b64char (b0 / 4) :: b64char (b0 % 4 * 16 + b1 / 16) ::
        b64char (b1 % 16 * 4 + b2 / 64) :: b64char (b2 % 64) :: base64encode rest

/-- Remove the trailing padding characters from a base-64 string. -/
def stripBase64Padding (l : List Char) : List Char :=
  (l.reverse.dropWhile (fun c => c == '=')).reverse

/-! ### Message identifiers -/

/-- getMessageId from the queue module: SHA-1 over the 8 Float64Array bytes
of the due time it is handed, followed by the message bytes; base-64 encoded
and with the final character (the single '=' padding of a 20-byte digest)
sliced off. -/
def getMessageId (time : ℤ) (text : List ℕ) : List Char :=
  (base64encode (sha1 (leBytes 8 (f64bits (f64OfInt time)) ++ text))).dropLast

/-- The id actually assigned to a submission whose due time is the
floating-point value tsMs milliseconds: the index.js handler rounds to an
integer number of milliseconds with Math.round before the queue module
computes the id. -/
def messageIdOfSubmission (tsMs : JSNumber) (text : List ℕ) : List Char :=
  getMessageId (jsRound tsMs) text

/-- Stated from the spec wording: the base-64 encoding, trailing '=' padding
stripped, of the SHA-1 of the 8-byte binary representation of the due time
timeMs as a 64-bit floating-point value, concatenated with the raw message
bytes. -/
def specMessageId (timeMs : JSNumber) (text : List ℕ) : List Char :=
  stripBase64Padding (base64encode (sha1 (leBytes 8 (f64bits timeMs) ++ text)))

/-- The binary64 datum of value 62.5 (bit pattern 404F400000000000). -/
def halfway62 : JSNumber := .finite false 1028 (61 * 2 ^ 46)

/-- Sanity check: halfway62 denotes 62.5 = 125 / 2. -/
theorem halfway62_value : halfway62.toRat = some (125 / 2) := by
  simp only [halfway62, JSNumber.toRat]
  norm_num

/-- Sanity check: the Float64Array bytes of the integer 1 are those of the
bit pattern 3FF0000000000000. -/
theorem f64_bytes_one : leBytes 8 (f64bits (f64OfInt 1)) = [0, 0, 0, 0, 0, 0, 240, 63] := by
  decide

/-- Sanity check: the Float64Array bytes of 63 and of 62.5. -/
theorem f64_bytes_62 :
    f64OfInt 63 = JSNumber.finite false 1028 (62 * 2 ^ 46) ∧
      leBytes 8 (f64bits halfway62) = [0, 0, 0, 0, 0, 64, 79, 64] := by decide

/-- Sanity check: Math.round of 62.5 is 63 and Math.round of -3.5 is -3. -/
theorem jsRound_halfway :
    jsRound halfway62 = 63 ∧ jsRound (.finite true 1024 (3 * 2 ^ 50)) = -3 := by decide

/-- Sanity check against the published base-64 vectors for "abc" and "ab". -/
theorem base64_test_vector :
    base64encode [97, 98, 99] = ['Y', 'W', 'J', 'j'] ∧
      base64encode [97, 98] = ['Y', 'W', 'I', '='] := by decide

/-- Sanity check: the id of the message byte 97 due at 63 ms, cross-checked
against an independent SHA-1 and base-64 implementation. -/
theorem messageId_test_vector :
    getMessageId 63 [97] =
      ['l', 'm', 'D', 'Y', 'B', 'u', 'l', 'z', 'Q', '5', 'i', 'O', 'U', 'Q', 'u', 'J',
       'm', 'X', 'p', 'g', 'p', 'y', 'j', 'Z', 'T', 'h', 'I'] := by decide

/-! ### Engine constants -/

/-- Duration of the reservation for a message processing, in ms. -/
def PROCESSING_WINDOW : ℕ := 1000

/-- Dequeuing retry delay: Math.ceil of 1.1 times the processing window.
The floating-point product 1.1 * 1000 evaluates to exactly 1100 in binary64
(the exact product 1100.0000000000000888... rounds to 1100, which is
representable), so the exact rational model below agrees with the source. -/
def PROCESSING_RETRY_DELAY : ℤ := Int.ceil ((11 : ℚ) / 10 * PROCESSING_WINDOW)

/-- Batch size for dequeuing. -/
def PROCESSING_BATCH_SIZE : ℕ := 30

/-- The retry delay evaluates to 1100 ms. -/
theorem processing_retry_delay_eq : PROCESSING_RETRY_DELAY = 1100 := by
  simp only [PROCESSING_RETRY_DELAY, PROCESSING_WINDOW]
  norm_num

/-! ### Enqueue (the write transaction and its exec callback) -/

/-- A command queued on a Redis pipelined transaction by enqueue. -/
inductive StoreOp where
  | setContent (id : List Char) (text : List ℕ)
  | zadd (time : ℤ) (id : List Char)
  | publish (payload : List ℕ)
deriving DecidableEq

/-- The operations placed in the enqueue multi transaction: set the content
key, add the queue member, and, exactly under the freshness condition of the
source, publish the submitted time on the next-due-time channel. -/
def enqueueOps (upToDate : Bool) (nextDueTime : Option ℤ) (time : ℤ) (id : List Char)
    (text : List ℕ) : List StoreOp :=
  [StoreOp.setContent id text, StoreOp.zadd time id] ++
    (if !upToDate ∨ nextDueTime = none ∨ (∃ d, nextDueTime = some d ∧ time < d) then
      [StoreOp.publish (numberToBuffer (some (f64OfInt time)))]
    else [])

/-- One per-operation reply inside a transaction: a value or a RedisError
(errors are given identities so that the returned one can be tracked). -/
inductive OpResult where
  | ok (v : ℤ)
  | err (e : ℕ)
deriving DecidableEq

/-- Scan for a RedisError among the replies, from the last to the first,
stopping at the first one found (the source's firstRedisError). -/
def firstErrAux : List OpResult → Option ℕ
  | [] => none
  | OpResult.err e :: _ => some e
  | OpResult.ok _ :: rest => firstErrAux rest

/-- firstRedisError from the source: the backward scan over the replies. -/
def firstRedisError (arr : List OpResult) : Option ℕ :=
  firstErrAux arr.reverse

/-- What the enqueue exec callback reports to its caller. -/
inductive EnqueueResult where
  | txFailed (e : ℕ)
  | opFailed (e : ℕ)
  | success
deriving DecidableEq

/-- Observable outcome of the enqueue exec callback. -/
structure EnqueueOutcome where
  rollbackIssued : Bool
  duplicateLogged : Bool
  result : EnqueueResult
deriving DecidableEq

/-- The enqueue exec callback: a transaction-level error is returned as is
(nothing was attempted); a per-operation error triggers the best-effort
rollback batch and the per-operation error is returned whatever the rollback
outcome rbError; otherwise a zadd reply different from 1 is logged as an
already-present member and success is reported. -/
def enqueueExec (txError : Option ℕ) (responses : List OpResult) (rbError : Option ℕ) :
    EnqueueOutcome :=
  match txError with
  | some e => ⟨false, false, EnqueueResult.txFailed e⟩
  | none =>
    match firstRedisError responses with
    | some e =>
        match rbError with
        | _ => ⟨true, false, EnqueueResult.opFailed e⟩
    | none => ⟨false, responses.getD 1 (OpResult.ok 1) ≠ OpResult.ok 1, EnqueueResult.success⟩

/-! ### The inspection loop interlock -/

/-- ToNumber coercion performed by Math.max on the nextDueTime argument:
null is coerced to 0, a number is itself. -/
def jsToNumber : Option ℤ → ℤ
  | none => 0
  | some t => t

/-- The cutoff of a pass: Math.max(nextDueTime, Date.now()). -/
def cutoff (nextDueTime : Option ℤ) (now : ℤ) : ℤ :=
  max (jsToNumber nextDueTime) now

/-- The two interlock flags of the inspection loop. -/
structure EngineSt where
  inspecting : Bool
  resume : Bool
deriving DecidableEq

/-- inspectQueue, as invoked by a timer firing (or a resumption): when a pass
is in progress it only raises the resume flag and returns (no pass is
started, witnessed by the none); otherwise it computes the cutoff and starts
a pass (actuallyInspectQueue raises the inspecting flag). -/
def inspectQueueEntry (s : EngineSt) (nextDueTime : Option ℤ) (now : ℤ) :
    EngineSt × Option ℤ :=
  if s.inspecting then ({ s with resume := true }, none)
  else (⟨true, s.resume⟩, some (cutoff nextDueTime now))

/-- What happens after the completion callback of a pass. -/
inductive PassNext where
  | restart (dueTime : ℤ)
  | retryAfter (delay : ℤ)
  | republish
deriving DecidableEq

/-- The pass completion callback cb(again): the inspecting flag falls; if a
resumption was requested it is consumed and a new pass starts immediately
(process.nextTick) with a freshly computed cutoff, raising the inspecting
flag again; otherwise with again set a retry is scheduled after
PROCESSING_RETRY_DELAY, and in the remaining case the watched republish of
the new minimum is emitted and the pass terminates. -/
def passComplete (s : EngineSt) (again : Bool) (nextDueTime : Option ℤ) (now : ℤ) :
    EngineSt × PassNext :=
  if s.resume then (⟨true, false⟩, PassNext.restart (cutoff nextDueTime now))
  else if again then (⟨false, false⟩, PassNext.retryAfter PROCESSING_RETRY_DELAY)
  else (⟨false, false⟩, PassNext.republish)

/-- What getBatch does once a batch has been processed. -/
inductive BatchNext where
  | finish (leftovers : Bool)
  | flipAndFetch (reverse : Bool)
deriving DecidableEq

/-- End-of-batch decision of getBatch: the reply is the flat WITHSCORES list
(two items per entry); a reply shorter than twice the batch size is the last
batch and finishes the pass through cb(leftovers), otherwise the direction
flag is flipped and another batch is fetched. -/
def afterBatch (reverse : Bool) (replyLen : ℕ) (leftovers : Bool) : BatchNext :=
  if replyLen < PROCESSING_BATCH_SIZE * 2 then BatchNext.finish leftovers
  else BatchNext.flipAndFetch (!reverse)

/-! ### tryDequeuing -/

/-- Result of the reservation attempt (conditional set of the lock key):
an error, a null reply (the lock is held elsewhere), or acquisition. -/
inductive ClaimRes where
  | errC
  | held
  | acquired
deriving DecidableEq

/-- Result of fetching the content key: an error, a null reply (the message
is missing, already dispatched elsewhere), or the text. -/
inductive ContentRes where
  | errG
  | missing
  | present (text : List ℕ)
deriving DecidableEq

/-- Observable events of one tryDequeuing run, in order.  cleanupDone marks
the completion callback of the cleanup batch, which runs after the eager
return. -/
inductive DispatchEv where
  | claimCmd (id : List Char)
  | getCmd (id : List Char)
  | emitMsg (time : ℤ) (text : List ℕ)
  | cleanupCmd (id : List Char)
  | returned (leftover : Bool)
  | cleanupDone
deriving DecidableEq

/-- tryDequeuing: reserve the message; on error or a held lock return
leftover true; fetch the content; on error or missing content return
leftover true; otherwise emit (doTask), issue the cleanup batch and return
leftover false at once, the cleanup completing on its own later. -/
def tryDequeuing (id : List Char) (time : ℤ) (claim : ClaimRes) (content : ContentRes) :
    List DispatchEv :=
  match claim with
  | ClaimRes.errC => [DispatchEv.claimCmd id, DispatchEv.returned true]
  | ClaimRes.held => [DispatchEv.claimCmd id, DispatchEv.returned true]
  | ClaimRes.acquired =>
    match content with
    | ContentRes.errG =>
        [DispatchEv.claimCmd id, DispatchEv.getCmd id, DispatchEv.returned true]
    | ContentRes.missing =>
        [DispatchEv.claimCmd id, DispatchEv.getCmd id, DispatchEv.returned true]
    | ContentRes.present text =>
        [DispatchEv.claimCmd id, DispatchEv.getCmd id, DispatchEv.emitMsg time text,
         DispatchEv.cleanupCmd id, DispatchEv.returned false, DispatchEv.cleanupDone]

/-! ### The reprogrammable timer -/

/-- The platform maximum delay of setTimeout. -/
def MAX_TIMEOUT : ℤ := 2147483647

/-- Events of a timer run: sleeps and the single firing of func. -/
inductive TimerEv where
  | sleep (d : ℤ)
  | fire
deriving DecidableEq

/-- The schedule loop of Timer.trigger under an ideal clock (each sleep of d
milliseconds wakes exactly d milliseconds later): a delay below one fires on
the next tick, a delay above the platform maximum sleeps one maximal chunk
and re-evaluates, and otherwise a single sleep reaches the target.  Returns
the event list and the firing instant. -/
def triggerRun (time now : ℤ) : List TimerEv × ℤ :=
  if time - now < 1 then ([TimerEv.fire], now)
  else if MAX_TIMEOUT < time - now then
    let r := triggerRun time (now + MAX_TIMEOUT)
    (TimerEv.sleep MAX_TIMEOUT :: r.1, r.2)
  else ([TimerEv.sleep (time - now), TimerEv.fire], time)
termination_by (time - now).toNat
decreasing_by
  simp only [MAX_TIMEOUT] at *
  omega

/-! ### Helper lemmas -/

/-- getD yields the default or a member of the list. -/
theorem getD_mem_or_default (l : List Char) (n : ℕ) (d : Char) :
    l.getD n d = d ∨ l.getD n d ∈ l := by
  induction l generalizing n with
  | nil => left; rfl
  | cons a t ih =>
      cases n with
      | zero => right; simp [List.getD]
      | succ m =>
          have : (a :: t).getD (m + 1) d = t.getD m d := by simp [List.getD]
          rw [this]
          rcases ih m with h | h
          · left; exact h
          · right; exact List.mem_cons_of_mem a h

/-- No 6-bit value maps to the padding character. -/
theorem b64char_ne_pad (n : ℕ) : b64char n ≠ '=' := by
  rcases getD_mem_or_default base64Alphabet n 'A' with h | h
  · rw [b64char, h]; decide
  · intro hc
    rw [b64char] at hc
    rw [hc] at h
    revert h
    decide

/-- Length of a base-64 encoding. -/
theorem base64encode_length (l : List ℕ) :
    (base64encode l).length = (l.length + 2) / 3 * 4 := by
  induction l using base64encode.induct with
  | case1 => simp [base64encode]
  | case2 b0 => simp [base64encode]
  | case3 b0 b1 => simp [base64encode]
  | case4 b0 b1 b2 rest ih =>
      simp only [base64encode, List.length_cons, ih]
      omega

/-- A byte string of length 2 modulo 3 encodes to a padding-free body
followed by exactly one padding character. -/
theorem base64encode_padding (l : List ℕ) (h : l.length % 3 = 2) :
    ∃ cs, base64encode l = cs ++ ['='] ∧ ∀ c ∈ cs, c ≠ '=' := by
  induction l using base64encode.induct with
  | case1 => simp at h
  | case2 b0 => simp at h
  | case3 b0 b1 =>
      refine ⟨[b64char (b0 / 4), b64char (b0 % 4 * 16 + b1 / 16), b64char (b1 % 16 * 4)],
        rfl, ?_⟩
      intro c hc
      simp only [List.mem_cons, List.not_mem_nil, or_false] at hc
      rcases hc with h1 | h1 | h1 <;> (rw [h1]; exact b64char_ne_pad _)
  | case4 b0 b1 b2 rest ih =>
      have hr : rest.length % 3 = 2 := by
        simp only [List.length_cons] at h
        omega
      obtain ⟨cs, hcs, hne⟩ := ih hr
      refine ⟨b64char (b0 / 4) :: b64char (b0 % 4 * 16 + b1 / 16) ::
        b64char (b1 % 16 * 4 + b2 / 64) :: b64char (b2 % 64) :: cs, ?_, ?_⟩
      · simp [base64encode, hcs]
      · intro c hc
        simp only [List.mem_cons] at hc
        rcases hc with h1 | h1 | h1 | h1 | h1
        · rw [h1]; exact b64char_ne_pad _
        · rw [h1]; exact b64char_ne_pad _
        · rw [h1]; exact b64char_ne_pad _
        · rw [h1]; exact b64char_ne_pad _
        · exact hne c h1

/-- dropWhile on the padding predicate fixes a padding-free list. -/
theorem dropWhile_pad_eq_self (l : List Char) (h : ∀ c ∈ l, c ≠ '=') :
    l.dropWhile (fun c => c == '=') = l := by
  cases l with
  | nil => rfl
  | cons a t =>
      rw [List.dropWhile_cons]
      have hp : (a == '=') = false := by
        simp only [beq_eq_false_iff_ne]
        exact h a (List.mem_cons_self a t)
      rw [hp]
      simp

/-- Stripping the padding of a body followed by one padding character
removes exactly that character. -/
theorem strip_padding_concat (cs : List Char) (h : ∀ c ∈ cs, c ≠ '=') :
    stripBase64Padding (cs ++ ['=']) = cs := by
  unfold stripBase64Padding
  rw [List.reverse_append]
  simp only [List.reverse_singleton, List.singleton_append, List.dropWhile_cons]
  have h1 : ('=' == '=') = true := by decide
  rw [h1]
  rw [dropWhile_pad_eq_self cs.reverse (fun c hc => h c (List.mem_reverse.mp hc))]
  exact List.reverse_reverse cs

/-- A SHA-1 digest has 20 bytes. -/
theorem sha1_length (msg : List ℕ) : (sha1 msg).length = 20 := by
  simp [sha1, beBytes]

/-- The backward error scan only reports errors present among the replies. -/
theorem firstErrAux_mem (l : List OpResult) (e : ℕ) (h : firstErrAux l = some e) :
    OpResult.err e ∈ l := by
  induction l with
  | nil => cases h
  | cons a t ih =>
      cases a with
      | ok v =>
          exact List.mem_cons_of_mem _ (ih h)
      | err e0 =>
          simp only [firstErrAux, Option.some.injEq] at h
          rw [← h]
          exact List.mem_cons_self _ _

/-- firstRedisError only reports errors present among the replies. -/
theorem firstRedisError_mem (arr : List OpResult) (e : ℕ)
    (h : firstRedisError arr = some e) : OpResult.err e ∈ arr :=
  List.mem_reverse.mp (firstErrAux_mem arr.reverse e h)

/-- Value of the little-endian serialization. -/
theorem leNat_leBytes (n v : ℕ) (h : v < 256 ^ n) : leNat (leBytes n v) = v := by
  induction n generalizing v with
  | zero =>
      simp only [Nat.pow_zero, Nat.lt_one_iff] at h
      simp [leBytes, leNat, h]
  | succ m ih =>
      have hd : v / 256 < 256 ^ m := by
        rw [Nat.div_lt_iff_lt_mul (by norm_num)]
        calc v < 256 ^ (m + 1) := h
        _ = 256 ^ m * 256 := by ring
      simp only [leBytes, leNat, ih (v / 256) hd]
      omega

/-- Serialization of the value of a byte list. -/
theorem leBytes_leNat (l : List ℕ) (h : ∀ b ∈ l, b < 256) :
    leBytes l.length (leNat l) = l := by
  induction l with
  | nil => rfl
  | cons b t ih =>
      have hb : b < 256 := h b (List.mem_cons_self b t)
      have ht : ∀ x ∈ t, x < 256 := fun x hx => h x (List.mem_cons_of_mem b hx)
      simp only [List.length_cons, leBytes, leNat]
      have h1 : (b + 256 * leNat t) % 256 = b := by omega
      have h2 : (b + 256 * leNat t) / 256 = leNat t := by omega
      rw [h1, h2, ih ht]

/-- Validity of an optional number (null counts as valid). -/
def validJSV : Option JSNumber → Prop
  | none => True
  | some x => validJSNumber x

/-- The bit pattern of a well-formed number fits in 64 bits. -/
theorem f64bits_lt (x : JSNumber) (h : validJSNumber x) : f64bits x < 2 ^ 64 := by
  cases x with
  | finite s e f =>
      obtain ⟨he, hf⟩ := h
      cases s <;> simp [f64bits] <;> omega
  | inf s => cases s <;> simp [f64bits]
  | nan b => exact h.1

/-- Reading back the written pattern of a well-formed number. -/
theorem f64ofBits_f64bits (x : JSNumber) (h : validJSNumber x) :
    f64ofBits (f64bits x) = x := by
  cases x with
  | finite s e f =>
      obtain ⟨he, hf⟩ := h
      cases s
      · have h1 : f64bits (JSNumber.finite false e f) = e * 2 ^ 52 + f := by
          simp [f64bits]
        have hs : (e * 2 ^ 52 + f) / 2 ^ 63 % 2 = 0 := by omega
        have hee : (e * 2 ^ 52 + f) / 2 ^ 52 % 2 ^ 11 = e := by omega
        have hff : (e * 2 ^ 52 + f) % 2 ^ 52 = f := by omega
        rw [h1]
        simp only [f64ofBits, hs, hee, hff]
        rw [if_neg (by omega)]
        simp
      · have h1 : f64bits (JSNumber.finite true e f) = 2 ^ 63 + e * 2 ^ 52 + f := by
          simp [f64bits]
        have hs : (2 ^ 63 + e * 2 ^ 52 + f) / 2 ^ 63 % 2 = 1 := by omega
        have hee : (2 ^ 63 + e * 2 ^ 52 + f) / 2 ^ 52 % 2 ^ 11 = e := by omega
        have hff : (2 ^ 63 + e * 2 ^ 52 + f) % 2 ^ 52 = f := by omega
        rw [h1]
        simp only [f64ofBits, hs, hee, hff]
        rw [if_neg (by omega)]
        simp
  | inf s => cases s <;> decide
  | nan b =>
      obtain ⟨-, he, hf⟩ := h
      have h1 : f64bits (JSNumber.nan b) = b := rfl
      rw [h1]
      simp only [f64ofBits]
      rw [if_pos he, if_neg hf]

/-- Writing back the number read from any 64-bit pattern: the raw bits are
preserved verbatim, NaN payloads included. -/
theorem f64bits_f64ofBits (v : ℕ) (hv : v < 2 ^ 64) :
    f64bits (f64ofBits v) = v := by
  by_cases he : v / 2 ^ 52 % 2 ^ 11 = 2047
  · by_cases hf : v % 2 ^ 52 = 0
    · by_cases hs : v / 2 ^ 63 % 2 = 1
      · have h1 : v = 2 ^ 63 + 2047 * 2 ^ 52 := by omega
        rw [h1]
        decide
      · have h1 : v = 2047 * 2 ^ 52 := by omega
        rw [h1]
        decide
    · have h1 : f64ofBits v = JSNumber.nan v := by
        simp only [f64ofBits]
        rw [if_pos he, if_neg hf]
      rw [h1]
      rfl
  · by_cases hs : v / 2 ^ 63 % 2 = 1
    · have h1 : f64ofBits v =
          JSNumber.finite true (v / 2 ^ 52 % 2 ^ 11) (v % 2 ^ 52) := by
        simp only [f64ofBits, hs]
        rw [if_neg he]
        simp
      rw [h1]
      simp [f64bits]
      omega
    · have hs0 : v / 2 ^ 63 % 2 = 0 := by omega
      have h1 : f64ofBits v =
          JSNumber.finite false (v / 2 ^ 52 % 2 ^ 11) (v % 2 ^ 52) := by
        simp only [f64ofBits, hs0]
        rw [if_neg he]
        simp
      rw [h1]
      simp [f64bits]
      omega

/-! ### The claims -/

/-- C1: for every (id, score) handled in a pass, tryDequeuing emits the
message if and only if the claim lock is obtained and the content key is
present; if the claim fails or errors, or the content is missing or errors,
it returns leftover true without emitting and without issuing the cleanup;
when it does emit, the full trace shows the emission before the cleanup
command, the leftover false return right after issuing the cleanup, and the
cleanup completion only after that return. -/
theorem tryDequeuing_dispatch (id : List Char) (time : ℤ) (claim : ClaimRes)
    (content : ContentRes) :
    ((∃ text, DispatchEv.emitMsg time text ∈ tryDequeuing id time claim content) ↔
      claim = ClaimRes.acquired ∧ ∃ text, content = ContentRes.present text) ∧
    (∀ text, claim = ClaimRes.acquired → content = ContentRes.present text →
      tryDequeuing id time claim content =
        [DispatchEv.claimCmd id, DispatchEv.getCmd id, DispatchEv.emitMsg time text,
         DispatchEv.cleanupCmd id, DispatchEv.returned false, DispatchEv.cleanupDone]) ∧
    (¬(claim = ClaimRes.acquired ∧ ∃ text, content = ContentRes.present text) →
      DispatchEv.returned true ∈ tryDequeuing id time claim content ∧
      DispatchEv.cleanupCmd id ∉ tryDequeuing id time claim content ∧
      ∀ text, DispatchEv.emitMsg time text ∉ tryDequeuing id time claim content) := by
  cases claim <;> cases content <;> simp [tryDequeuing]

/-- C1 witness: a concrete successful dispatch. -/
theorem tryDequeuing_dispatch_witness :
    tryDequeuing [] 5 ClaimRes.acquired (ContentRes.present [97]) =
      [DispatchEv.claimCmd [], DispatchEv.getCmd [], DispatchEv.emitMsg 5 [97],
       DispatchEv.cleanupCmd [], DispatchEv.returned false, DispatchEv.cleanupDone] :=
  (tryDequeuing_dispatch [] 5 ClaimRes.acquired (ContentRes.present [97])).2.1 [97] rfl rfl

/-- C2 counterexample: at the submission with due time 62.5 ms (a value
whose rounding to integer milliseconds is 63) and message byte 97, the id
computed by the code differs from the spec formula taken over the 8-byte
representation of the due time before rounding. -/
theorem messageId_before_rounding_cex :
    messageIdOfSubmission halfway62 [97] ≠ specMessageId halfway62 [97] := by decide

/-- C2 (amended): for every submission, the message id equals the base-64
encoding, trailing '=' padding stripped, of the SHA-1 of the 8-byte binary
representation of the due time rounded to integer milliseconds (as a 64-bit
floating-point value) followed by the raw message bytes, and it is a fixed
27-character string (hence a deterministic function of the pair). -/
theorem messageId_of_rounded_time (tsMs : JSNumber) (text : List ℕ) :
    messageIdOfSubmission tsMs text = specMessageId (f64OfInt (jsRound tsMs)) text ∧
      (messageIdOfSubmission tsMs text).length = 27 := by
  have h20 := sha1_length (leBytes 8 (f64bits (f64OfInt (jsRound tsMs))) ++ text)
  obtain ⟨cs, hcs, hne⟩ := base64encode_padding
    (sha1 (leBytes 8 (f64bits (f64OfInt (jsRound tsMs))) ++ text)) (by rw [h20])
  have hlen := base64encode_length (sha1 (leBytes 8 (f64bits (f64OfInt (jsRound tsMs))) ++ text))
  rw [h20] at hlen
  rw [hcs] at hlen
  rw [List.length_append] at hlen
  simp only [List.length_singleton] at hlen
  constructor
  · simp only [messageIdOfSubmission, getMessageId, specMessageId]
    rw [hcs, List.dropLast_concat, strip_padding_concat cs hne]
  · simp only [messageIdOfSubmission, getMessageId]
    rw [hcs, List.dropLast_concat]
    omega

/-- C3: the publication of the new minimum on the ndt channel is part of the
enqueue transaction exactly when the replica is not up to date, or knows no
next due time, or the submitted time precedes the known next due time. -/
theorem enqueue_publish_iff (upToDate : Bool) (nextDueTime : Option ℤ) (time : ℤ)
    (id : List Char) (text : List ℕ) :
    StoreOp.publish (numberToBuffer (some (f64OfInt time))) ∈
        enqueueOps upToDate nextDueTime time id text ↔
      (upToDate = false ∨ nextDueTime = none ∨ ∃ d, nextDueTime = some d ∧ time < d) := by
  rcases nextDueTime with _ | d
  · cases upToDate <;> simp [enqueueOps]
  · cases upToDate
    · simp [enqueueOps]
    · by_cases hlt : time < d <;> simp [enqueueOps, hlt]

/-- C3 witness: with a stale replica the publish operation is queued. -/
theorem enqueue_publish_iff_witness :
    StoreOp.publish (numberToBuffer (some (f64OfInt 5))) ∈
      enqueueOps false none 5 [] [97] :=
  (enqueue_publish_iff false none 5 [] [97]).mpr (Or.inl rfl)

/-- C4: at most one inspection pass runs at a time per replica: when the
inspecting flag is up, a timer firing only raises the resume flag and starts
no pass; and a pass completing with the resume flag up consumes the flag and
restarts immediately with a freshly computed cutoff max(nextDueTime, now). -/
theorem inspection_interlock (s : EngineSt) (nextDueTime : Option ℤ) (now : ℤ)
    (again : Bool) :
    (s.inspecting = true →
      inspectQueueEntry s nextDueTime now = ({ s with resume := true }, none)) ∧
    (s.resume = true →
      passComplete s again nextDueTime now =
        (⟨true, false⟩, PassNext.restart (cutoff nextDueTime now))) := by
  constructor
  · intro h
    simp [inspectQueueEntry, h]
  · intro h
    simp [passComplete, h]

/-- C4 witness: a firing during a pass, and a completion with the resume
flag up. -/
theorem inspection_interlock_witness :
    inspectQueueEntry ⟨true, false⟩ none 5 = (⟨true, true⟩, none) ∧
      passComplete ⟨false, true⟩ false none 5 =
        (⟨true, false⟩, PassNext.restart (cutoff none 5)) ∧
      cutoff none 5 = 5 :=
  ⟨(inspection_interlock ⟨true, false⟩ none 5 false).1 rfl,
   (inspection_interlock ⟨false, true⟩ none 5 false).2 rfl,
   by norm_num [cutoff, jsToNumber]⟩

/-- C5: a batch fetch whose flat WITHSCORES reply holds exactly 30 entries
flips the direction flag and fetches again; a shorter reply ends the pass,
whose completion reschedules after the retry delay when a leftover occurred
and otherwise emits the watched republish and terminates. -/
theorem batch_flip (reverse leftovers : Bool) (entries : ℕ) (i : Bool)
    (nextDueTime : Option ℤ) (now : ℤ) :
    (entries = PROCESSING_BATCH_SIZE →
      afterBatch reverse (2 * entries) leftovers = BatchNext.flipAndFetch (!reverse)) ∧
    (entries < PROCESSING_BATCH_SIZE →
      afterBatch reverse (2 * entries) leftovers = BatchNext.finish leftovers) ∧
    (passComplete ⟨i, false⟩ true nextDueTime now =
      (⟨false, false⟩, PassNext.retryAfter PROCESSING_RETRY_DELAY)) ∧
    (passComplete ⟨i, false⟩ false nextDueTime now =
      (⟨false, false⟩, PassNext.republish)) := by
  refine ⟨?_, ?_, by simp [passComplete], by simp [passComplete]⟩
  · intro h
    rw [h]
    simp only [afterBatch]
    rw [if_neg (by omega)]
  · intro h
    simp only [afterBatch]
    rw [if_pos (by simp only [PROCESSING_BATCH_SIZE] at h ⊢; omega)]

/-- C5 witness: a full batch of 30 entries flips, a batch of 29 ends. -/
theorem batch_flip_witness :
    afterBatch false (2 * 30) false = BatchNext.flipAndFetch true ∧
      afterBatch false (2 * 29) true = BatchNext.finish true := by
  constructor
  · have h := (batch_flip false false 30 false none 0).1 rfl
    simpa using h
  · have h := (batch_flip false true 29 false none 0).2.1
      (by simp [PROCESSING_BATCH_SIZE])
    simpa using h

/-- C6: the delay of the rescheduled pass equals PROCESSING_RETRY_DELAY,
the ceiling of 1.1 times PROCESSING_WINDOW, which is 1100 milliseconds. -/
theorem retry_delay_1100 (i : Bool) (nextDueTime : Option ℤ) (now : ℤ) :
    PROCESSING_RETRY_DELAY = 1100 ∧
      PROCESSING_RETRY_DELAY = Int.ceil ((11 : ℚ) / 10 * (PROCESSING_WINDOW : ℚ)) ∧
      passComplete ⟨i, false⟩ true nextDueTime now =
        (⟨false, false⟩, PassNext.retryAfter 1100) := by
  refine ⟨processing_retry_delay_eq, rfl, ?_⟩
  simp [passComplete, processing_retry_delay_eq]

/-- The schedule loop always fires exactly once, never sleeps beyond the
platform maximum, and reaches the trigger instant whenever that instant is
at least one millisecond away. -/
theorem triggerRun_spec (time now : ℤ) :
    (1 ≤ time - now → (triggerRun time now).2 = time) ∧
    (∀ d, TimerEv.sleep d ∈ (triggerRun time now).1 → d ≤ MAX_TIMEOUT) ∧
    (triggerRun time now).1.count TimerEv.fire = 1 := by
  have H : ∀ k : ℕ, ∀ n : ℤ, (time - n).toNat = k →
      (1 ≤ time - n → (triggerRun time n).2 = time) ∧
      (∀ d, TimerEv.sleep d ∈ (triggerRun time n).1 → d ≤ MAX_TIMEOUT) ∧
      (triggerRun time n).1.count TimerEv.fire = 1 := by
    intro k
    induction k using Nat.strong_induction_on with
    | _ k ih =>
        intro n hk
        by_cases hc1 : time - n < 1
        · rw [triggerRun.eq_def, if_pos hc1]
          exact ⟨fun h1 => absurd h1 (by omega), by simp, by simp⟩
        · by_cases hc2 : MAX_TIMEOUT < time - n
          · have hdec : (time - (n + MAX_TIMEOUT)).toNat < k := by
              simp only [MAX_TIMEOUT] at hc2 ⊢
              omega
            obtain ⟨iha, ihb, ihc⟩ := ih _ hdec (n + MAX_TIMEOUT) rfl
            rw [triggerRun.eq_def, if_neg hc1, if_pos hc2]
            refine ⟨fun h3 => iha (by simp only [MAX_TIMEOUT] at hc2 ⊢; omega), ?_, ?_⟩
            · intro d hd
              simp only [List.mem_cons] at hd
              rcases hd with hd | hd
              · cases hd
                exact le_refl _
              · exact ihb d hd
            · simpa [List.count_cons] using ihc
          · rw [triggerRun.eq_def, if_neg hc1, if_neg hc2]
            refine ⟨fun _ => rfl, ?_, by simp [List.count_cons]⟩
            intro d hd
            simp only [List.mem_cons, List.not_mem_nil, or_false] at hd
            rcases hd with hd | hd
            · cases hd
              simp only [MAX_TIMEOUT] at hc2 ⊢
              omega
            · cases hd
  exact H (time - now).toNat now rfl

/-- C7: when the trigger instant lies beyond the platform maximum delay, the
schedule loop sleeps in chunks of at most that maximum, terminates, and the
callback fires exactly once, at the trigger instant. -/
theorem timer_overflow_chunking (time now : ℤ) (h : MAX_TIMEOUT < time - now) :
    (triggerRun time now).2 = time ∧
    (∀ d, TimerEv.sleep d ∈ (triggerRun time now).1 → d ≤ MAX_TIMEOUT) ∧
    (triggerRun time now).1.count TimerEv.fire = 1 := by
  obtain ⟨ha, hb, hc⟩ := triggerRun_spec time now
  exact ⟨ha (by simp only [MAX_TIMEOUT] at h; omega), hb, hc⟩

/-- C7 witness: a trigger two chunks away fires once, at the trigger
instant. -/
theorem timer_overflow_chunking_witness :
    MAX_TIMEOUT < 4294967296 - 0 ∧
      ((triggerRun 4294967296 0).2 = 4294967296 ∧
       (∀ d, TimerEv.sleep d ∈ (triggerRun 4294967296 0).1 → d ≤ MAX_TIMEOUT) ∧
       (triggerRun 4294967296 0).1.count TimerEv.fire = 1) :=
  ⟨by decide, timer_overflow_chunking 4294967296 0 (by decide)⟩

/-- The value of a byte list is bounded. -/
theorem leNat_lt (l : List ℕ) (h : ∀ y ∈ l, y < 256) : leNat l < 256 ^ l.length := by
  induction l with
  | nil => simp [leNat]
  | cons b t ih =>
      have hb := h b (List.mem_cons_self b t)
      have ht := ih (fun y hy => h y (List.mem_cons_of_mem b hy))
      simp only [leNat, List.length_cons, pow_succ]
      have hgen : leNat t < 256 ^ t.length := ht
      generalize 256 ^ t.length = P at hgen ⊢
      omega

/-- C8: decoding after encoding is the identity on null and on every
number, NaN payloads included (V8 typed-array moves preserve the raw 64
bits); encoding after decoding is the identity on the empty buffer and on
every 8-byte buffer. -/
theorem buffer_number_roundtrip :
    (∀ x : Option JSNumber, validJSV x → bufferToNumber (numberToBuffer x) = x) ∧
    (∀ b : List ℕ, b.length = 8 → (∀ y ∈ b, y < 256) →
      numberToBuffer (bufferToNumber b) = b) ∧
    bufferToNumber (numberToBuffer none) = none ∧
    numberToBuffer (bufferToNumber EMPTY_BUFFER) = EMPTY_BUFFER := by
  refine ⟨?_, ?_, rfl, rfl⟩
  · intro x hx
    cases x with
    | none => rfl
    | some v =>
        have hv := f64bits_lt v hx
        have h8 : leBytes 8 (f64bits v) ≠ [] := by simp [leBytes]
        simp only [numberToBuffer, bufferToNumber, if_neg h8]
        rw [leNat_leBytes 8 (f64bits v) (by norm_num; omega)]
        rw [f64ofBits_f64bits v hx]
  · intro b hlen hbytes
    have hb : b ≠ [] := by
      intro h0
      rw [h0] at hlen
      simp at hlen
    have hv : leNat b < 2 ^ 64 := by
      have := leNat_lt b hbytes
      rw [hlen] at this
      norm_num at this ⊢
      omega
    simp only [bufferToNumber, if_neg hb, numberToBuffer]
    rw [f64bits_f64ofBits (leNat b) hv]
    have := leBytes_leNat b hbytes
    rw [hlen] at this
    exact this

/-- C8 witness: the round trips at the number 1.0 and its buffer, and at an
8-byte buffer carrying the NaN payload pattern 7FF0000000000001, which
survives the decode-encode round trip bit-exactly. -/
theorem buffer_number_roundtrip_witness :
    validJSV (some (JSNumber.finite false 1023 0)) ∧
      bufferToNumber (numberToBuffer (some (JSNumber.finite false 1023 0))) =
        some (JSNumber.finite false 1023 0) ∧
      validJSV (some (JSNumber.nan 9218868437227405313)) ∧
      bufferToNumber (numberToBuffer (some (JSNumber.nan 9218868437227405313))) =
        some (JSNumber.nan 9218868437227405313) ∧
      numberToBuffer (bufferToNumber [0, 0, 0, 0, 0, 0, 240, 63]) =
        [0, 0, 0, 0, 0, 0, 240, 63] ∧
      numberToBuffer (bufferToNumber [1, 0, 0, 0, 0, 0, 240, 127]) =
        [1, 0, 0, 0, 0, 0, 240, 127] := by
  have h1 : validJSV (some (JSNumber.finite false 1023 0)) := by
    simp [validJSV, validJSNumber]
  have h2 : validJSV (some (JSNumber.nan 9218868437227405313)) := by
    simp only [validJSV, validJSNumber, isNaNPattern]
    norm_num
  refine ⟨h1, buffer_number_roundtrip.1 (some (JSNumber.finite false 1023 0)) h1,
    h2, buffer_number_roundtrip.1 (some (JSNumber.nan 9218868437227405313)) h2,
    buffer_number_roundtrip.2.1 [0, 0, 0, 0, 0, 0, 240, 63] rfl (by decide),
    buffer_number_roundtrip.2.1 [1, 0, 0, 0, 0, 0, 240, 127] rfl (by decide)⟩

/-- C9: a per-operation error inside the executed enqueue transaction leads
to the rollback being issued and that error (one of the reply errors, found
by the backward scan) being returned whatever the rollback outcome; a zadd
reply of 0 (member already present) with no error is logged as a duplicate
while success is reported. -/
theorem enqueue_exec_policy (responses : List OpResult) (rbError : Option ℕ) (e : ℕ) :
    (firstRedisError responses = some e →
      enqueueExec none responses rbError =
        ⟨true, false, EnqueueResult.opFailed e⟩ ∧ OpResult.err e ∈ responses) ∧
    (firstRedisError responses = none →
      responses.getD 1 (OpResult.ok 1) = OpResult.ok 0 →
      enqueueExec none responses rbError = ⟨false, true, EnqueueResult.success⟩) := by
  constructor
  · intro h
    refine ⟨?_, firstRedisError_mem responses e h⟩
    simp [enqueueExec, h]
  · intro h1 h2
    simp only [List.getD_eq_getElem?_getD] at h2
    simp [enqueueExec, h1, h2]

/-- C9 witness: a zadd error is rolled back and surfaced; a zadd reply of 0
is reported as success with the duplicate logged. -/
theorem enqueue_exec_policy_witness :
    firstRedisError [OpResult.ok 1, OpResult.err 7] = some 7 ∧
      (enqueueExec none [OpResult.ok 1, OpResult.err 7] none =
        ⟨true, false, EnqueueResult.opFailed 7⟩ ∧
       OpResult.err 7 ∈ [OpResult.ok 1, OpResult.err 7]) ∧
      enqueueExec none [OpResult.ok 1, OpResult.ok 0] none =
        ⟨false, true, EnqueueResult.success⟩ :=
  ⟨by decide,
   (enqueue_exec_policy [OpResult.ok 1, OpResult.err 7] none 7).1 (by decide),
   (enqueue_exec_policy [OpResult.ok 1, OpResult.ok 0] none 7).2 (by decide) (by decide)⟩

/-- C10: when a pass starts with no known next due time, the cutoff is well
defined and equals the current (nonnegative) time, null being coerced to 0
under Math.max, so every currently due score falls within the fetch bound. -/
theorem cutoff_null_coercion (now : ℤ) (h : 0 ≤ now) :
    cutoff none now = now ∧ ∀ score : ℤ, score ≤ now → score ≤ cutoff none now := by
  have h1 : cutoff none now = now := by
    simp only [cutoff, jsToNumber]
    exact max_eq_right h
  exact ⟨h1, fun score hs => by rw [h1]; exact hs⟩

/-- C10 witness: the cutoff at time 5 with no known next due time. -/
theorem cutoff_null_coercion_witness :
    (0 : ℤ) ≤ 5 ∧
      (cutoff none 5 = 5 ∧ ∀ score : ℤ, score ≤ 5 → score ≤ cutoff none 5) :=
  ⟨by norm_num, cutoff_null_coercion 5 (by norm_num)⟩

end Echoing
